import Mathlib

/-!
# Verification of RecipeBox (`recipe_box.py`)

A shallow embedding of the algorithmic core of the RecipeBox application:
the ingredient-quantity parser/scaler (`_scale_ingredient_line`), the
repository decode path (`RecipeRepo._row_to_recipe`), substring search
(`RecipeRepo.search`, SQLite `LIKE` semantics), and the CSV bulk transfer
(`RecipeRepo.import_csv` / `RecipeRepo.export_csv`).

Modelling conventions:
* Python `float` arithmetic is modelled with exact rationals (`ℚ`); the
  quantities reachable from the quantity regex are short decimal/fraction
  literals, for which the idealisation agrees on every value used below.
* Python exceptions are modelled with `Except Unit`; a caught exception is a
  `.error` value consumed by the handler, exactly where the source has
  `try`/`except`.
* Character classes (`\d`, `\s`, `\w`, `str.strip`, SQLite `LIKE` case
  folding) are modelled over their ASCII behaviour, which is exercised by
  every input below.
* `json.dumps` on a list of strings and `json.loads` are modelled by an
  executable encoder (`jsonDumpsList`) and a fuelled recursive-descent
  decoder (`jsonLoads`) for the JSON grammar (plus Python's `NaN`/`Infinity`
  extension); lone surrogate escapes are rejected (not representable in
  `Char`, unreachable below).
-/

/-! ## Character helpers (ASCII) -/

/-- `\d` of the quantity regex: an ASCII digit. -/
def isDigitA (c : Char) : Bool := 48 ≤ c.toNat ∧ c.toNat ≤ 57

/-- `\s` of the quantity regex (ASCII part). -/
def isPySpace (c : Char) : Bool :=
  c = ' ' ∨ c = '\t' ∨ c = '\n' ∨ c = '\r' ∨ c = '\x0b' ∨ c = '\x0c'

/-- `\w` of the quantity regex (ASCII part): letter, digit or underscore. -/
def isWordC (c : Char) : Bool :=
  (65 ≤ c.toNat ∧ c.toNat ≤ 90) ∨ (97 ≤ c.toNat ∧ c.toNat ≤ 122) ∨
    (48 ≤ c.toNat ∧ c.toNat ≤ 57) ∨ c.toNat = 95

/-- Python `str.strip()` on a character list: drop whitespace on both ends. -/
def stripChars (cs : List Char) : List Char :=
  ((cs.dropWhile isPySpace).reverse.dropWhile isPySpace).reverse

/-- Python `str.strip()`. -/
def pyStripS (s : String) : String := ⟨stripChars s.data⟩

/-- Python `str.split(sep)` for a one-character separator (keeps empties). -/
def splitChar (sep : Char) : List Char → List (List Char)
  | [] => [[]]
  | c :: rest =>
    if c = sep then [] :: splitChar sep rest
    else
      match splitChar sep rest with
      | [] => [[c]]
      | h :: t => (c :: h) :: t

/-- `sep.join(items)` on character lists. -/
def joinChar (sep : Char) : List (List Char) → List Char
  | [] => []
  | [x] => x
  | x :: xs => x ++ sep :: joinChar sep xs

/-- Python no-argument `str.split()`: split on whitespace runs, no empties. -/
def splitWsAux : List Char → List Char → List (List Char)
  | [], acc => if acc = [] then [] else [acc.reverse]
  | c :: rest, acc =>
    if isPySpace c then
      if acc = [] then splitWsAux rest [] else acc.reverse :: splitWsAux rest []
    else splitWsAux rest (c :: acc)

def pySplitWs (cs : List Char) : List (List Char) := splitWsAux cs []

/-- Numeric value of a list of ASCII digits. -/
def natOfDigits (ds : List Char) : Nat :=
  ds.foldl (fun n c => n * 10 + (c.toNat - 48)) 0

/-- Decimal digit character for `k < 10`. -/
def digitChar10 (k : Nat) : Char := Char.ofNat (48 + k)

/-- Decimal rendering, fuelled so that it reduces definitionally. -/
def natDigitsAux : Nat → Nat → List Char
  | 0, _ => []
  | fuel + 1, n =>
    if n < 10 then [digitChar10 n]
    else natDigitsAux fuel (n / 10) ++ [digitChar10 (n % 10)]

/-- Decimal rendering of a natural number (what Python `str` produces). -/
def natDigits (n : Nat) : List Char := natDigitsAux (n + 1) n

/-- Python `str(i)` for an integer. -/
def pyStrInt (i : Int) : String :=
  if i < 0 then ⟨'-' :: natDigits i.natAbs⟩ else ⟨natDigits i.natAbs⟩

/-- All-digit check plus value, used by the model of `int(str)`. -/
def digitsVal : List Char → Option Nat
  | ds => if ds ≠ [] ∧ ds.all isDigitA then some (natOfDigits ds) else none

/-- Python `int(s)` for a decimal string literal: strips whitespace, allows
one sign, then requires a non-empty run of digits (underscores and non-ASCII
digits are not modelled; no input below uses them). -/
def pyIntCore : List Char → Except Unit Int
  | [] => .error ()
  | c :: ds =>
    if c = '+' then
      match digitsVal ds with
      | some n => .ok (n : Int)
      | none => .error ()
    else if c = '-' then
      match digitsVal ds with
      | some n => .ok (-(n : Int))
      | none => .error ()
    else
      match digitsVal (c :: ds) with
      | some n => .ok (n : Int)
      | none => .error ()

def pyIntStr (s : String) : Except Unit Int := pyIntCore (stripChars s.data)

/-! ## Quantity parser / scaler (`_scale_ingredient_line`, lines 514-548)

The regex `^(\d+\s+\d+/\d+|\d+/\d+|\d+(?:\.\d+)?)\b(.*)$` is modelled by
trying the three alternatives in order.  Within an alternative the character
classes are disjoint, so greedy matching needs no backtracking, except for
the optional decimal part of the third alternative: the regex engine first
tries `\d+\.\d+` and, if the following `\b` fails, retries with the integer
alone.  Shrinking a `\d+` run can never repair `\b` (the next character
would be a digit, which is a word character), so no other backtracking can
succeed. -/

/-- `\b` after a digit: next char must be absent or a non-word char. -/
def boundaryOk : List Char → Bool
  | [] => true
  | c :: _ => !isWordC c

/-- First alternative `\d+\s+\d+/\d+` followed by `\b`.
Returns (group 1, group 2) on success. -/
def altMixed (cs : List Char) : Option (List Char × List Char) :=
  let d1 := cs.takeWhile isDigitA
  let r1 := cs.dropWhile isDigitA
  let w := r1.takeWhile isPySpace
  let r2 := r1.dropWhile isPySpace
  let d2 := r2.takeWhile isDigitA
  let r3 := r2.dropWhile isDigitA
  if d1 = [] ∨ w = [] ∨ d2 = [] then none
  else
    match r3 with
    | '/' :: r4 =>
      let d3 := r4.takeWhile isDigitA
      let r5 := r4.dropWhile isDigitA
      if d3 = [] then none
      else if boundaryOk r5 then some (d1 ++ w ++ d2 ++ '/' :: d3, r5) else none
    | _ => none

/-- Second alternative `\d+/\d+` followed by `\b`. -/
def altFrac (cs : List Char) : Option (List Char × List Char) :=
  let d1 := cs.takeWhile isDigitA
  let r1 := cs.dropWhile isDigitA
  if d1 = [] then none
  else
    match r1 with
    | '/' :: r2 =>
      let d2 := r2.takeWhile isDigitA
      let r3 := r2.dropWhile isDigitA
      if d2 = [] then none
      else if boundaryOk r3 then some (d1 ++ '/' :: d2, r3) else none
    | _ => none

/-- Third alternative `\d+(?:\.\d+)?` followed by `\b` (with the regex
engine's fallback from the decimal form to the bare integer). -/
def altDec (cs : List Char) : Option (List Char × List Char) :=
  let d1 := cs.takeWhile isDigitA
  let r1 := cs.dropWhile isDigitA
  if d1 = [] then none
  else
    let noFrac : Option (List Char × List Char) :=
      if boundaryOk r1 then some (d1, r1) else none
    match r1 with
    | '.' :: r2 =>
      let d2 := r2.takeWhile isDigitA
      let r3 := r2.dropWhile isDigitA
      if d2 ≠ [] ∧ boundaryOk r3 then some (d1 ++ '.' :: d2, r3) else noFrac
    | _ => noFrac

/-- `re.match` of the quantity regex on the (stripped) line: group 1 and
group 2, or `none` when the regex does not match. -/
def matchQty (cs : List Char) : Option (List Char × List Char) :=
  (altMixed cs).orElse fun _ => (altFrac cs).orElse fun _ => altDec cs

/-! Rational arithmetic, spelled out through `mkRat`/`num`/`den` so that
every operation reduces definitionally (the ambient `ℚ` operations are
irreducible in this toolchain).  `mkRat` normalises, and a `Rat` always has
a positive denominator, so the cross-multiplication forms below are the
usual field operations. -/

/-- `a * b` on `ℚ`. -/
def ratMul (a b : ℚ) : ℚ := mkRat (a.num * b.num) (a.den * b.den)

/-- `a + b` on `ℚ`. -/
def ratAdd (a b : ℚ) : ℚ :=
  mkRat (a.num * (b.den : ℤ) + b.num * (a.den : ℤ)) (a.den * b.den)

/-- `-a` on `ℚ`. -/
def ratNeg (a : ℚ) : ℚ := mkRat (-a.num) a.den

/-- `a / b` on `ℚ` (callers guard `b ≠ 0`). -/
def ratDivQ (a b : ℚ) : ℚ :=
  if b.num < 0 then mkRat (-(a.num * (b.den : ℤ))) (a.den * b.num.natAbs)
  else mkRat (a.num * (b.den : ℤ)) (a.den * b.num.natAbs)

/-- `a < b` on `ℚ`, by cross multiplication. -/
def ratLt (a b : ℚ) : Prop := a.num * (b.den : ℤ) < b.num * (a.den : ℤ)

instance (a b : ℚ) : Decidable (ratLt a b) := by unfold ratLt; infer_instance

/-- `|a|` on `ℚ`. -/
def ratAbs (a : ℚ) : ℚ := if a.num < 0 then mkRat (-a.num) a.den else a

/-- `⌊x⌋` on `ℚ`. -/
def ratFloor (x : ℚ) : ℤ := Int.fdiv x.num (x.den : ℤ)

/-- `x - i` for an integer `i`. -/
def ratSubInt (x : ℚ) (i : ℤ) : ℚ := mkRat (x.num - i * (x.den : ℤ)) x.den

/-- Python `float(s)` restricted to the decimal forms reachable from the
quantity regex (optional sign, digits with an optional fractional part;
exponents/`inf`/`nan` are never produced by the regex).  The value of
`d1.d2` is `(d1 * 10^k + d2) / 10^k`. -/
def pyFloatQ (cs0 : List Char) : Except Unit ℚ :=
  let cs := stripChars cs0
  let core : List Char → Except Unit ℚ := fun cs1 =>
    let d1 := cs1.takeWhile isDigitA
    let r1 := cs1.dropWhile isDigitA
    match r1 with
    | [] => if d1 = [] then .error () else .ok (mkRat (natOfDigits d1) 1)
    | '.' :: r2 =>
      let d2 := r2.takeWhile isDigitA
      let r3 := r2.dropWhile isDigitA
      if r3 = [] ∧ (d1 ≠ [] ∨ d2 ≠ []) then
        .ok (mkRat (natOfDigits d1 * 10 ^ d2.length + natOfDigits d2) (10 ^ d2.length))
      else .error ()
    | _ => .error ()
  match cs with
  | '+' :: r => core r
  | '-' :: r => (core r).map ratNeg
  | r => core r

/-- `_frac_str_to_float`: split on `/`, needs exactly two parts; division by
a zero denominator is the `ZeroDivisionError` of the source. -/
def fracStrToFloat (fr : List Char) : Except Unit ℚ :=
  match splitChar '/' fr with
  | [num, den] => do
    let n ← pyFloatQ num
    let d ← pyFloatQ den
    if d.num = 0 then .error () else .ok (ratDivQ n d)
  | _ => .error ()

/-- `frac_to_float`: mixed number (contains a space), simple fraction
(contains `/`), or plain decimal. -/
def fracToFloat (q : List Char) : Except Unit ℚ :=
  if q.contains ' ' then
    match pySplitWs q with
    | [a, b] => do
      let x ← pyFloatQ a
      let y ← fracStrToFloat b
      .ok (ratAdd x y)
    | _ => .error ()
  else if q.contains '/' then fracStrToFloat q
  else pyFloatQ q

/-- Python `round(x)` (half to even), on the rational model: with
`f = ⌊x⌋` and `r` the numerator of `x - f` over `x.den`, the fractional
part is compared with `1/2` by cross multiplication. -/
def rndHE (x : ℚ) : ℤ :=
  let f : ℤ := ratFloor x
  let r : ℤ := x.num - f * (x.den : ℤ)
  if 2 * r < (x.den : ℤ) then f
  else if (x.den : ℤ) < 2 * r then f + 1
  else if f % 2 = 0 then f else f + 1

/-- Two-digit zero padding for the fractional part. -/
def pad2 (k : Nat) : String :=
  if k < 10 then ⟨'0' :: natDigits k⟩ else ⟨natDigits k⟩

/-- `f"{x:.2f}"`: fixed two decimal places, half-even rounding; a negative
value keeps its sign even when the digits round to zero. -/
def twoDecStr (x : ℚ) : String :=
  let m := (rndHE (ratMul (ratAbs x) (mkRat 100 1))).natAbs
  let sign : String := if x.num < 0 then ⟨['-']⟩ else ⟨[]⟩
  sign ++ ⟨natDigits (m / 100)⟩ ++ ⟨['.']⟩ ++ pad2 (m % 100)

/-- Python `str.rstrip("0")`. -/
def rstripZeros (s : String) : String :=
  ⟨(s.data.reverse.dropWhile (fun c => c = '0')).reverse⟩

/-- Python `str.rstrip(".")`. -/
def rstripDot (s : String) : String :=
  ⟨(s.data.reverse.dropWhile (fun c => c = '.')).reverse⟩

/-- The quantity rendering of `_scale_ingredient_line` (lines 542-545):
integers within `1e-6` render bare, otherwise two decimals with trailing
zeros and a trailing point stripped. -/
def fmtQty (x : ℚ) : String :=
  if ratLt (ratAbs (ratSubInt x (rndHE x))) (mkRat 1 1000000) then pyStrInt (rndHE x)
  else rstripDot (rstripZeros (twoDecStr x))

/-- `_scale_ingredient_line(line, ratio)`. -/
def scaleIngredientLine (line : String) (ratio : ℚ) : String :=
  let s := stripChars line.data
  match matchQty s with
  | none => ⟨s⟩
  | some (g1, g2) =>
    let qtyStr := stripChars g1
    let rest := stripChars g2
    match (fracToFloat qtyStr).map (fun qty => fmtQty (ratMul qty ratio)) with
    | .ok f => ⟨f.data ++ ' ' :: rest⟩
    | .error _ => ⟨s⟩

/-! ## JSON (`json.dumps` on a list of strings, `json.loads`)

`RecipeRepo` stores the ingredient list as `json.dumps(list_of_str)` and
reads it back with `json.loads` inside `try`/`except`.  The encoder below
produces exactly what `json.dumps(..., ensure_ascii=False)` produces
(default separators, so `", "` between items); the decoder is a fuelled
recursive-descent parser for the JSON grammar plus Python's
`NaN`/`Infinity`/`-Infinity` extension.  Python `dict`s are decoded as
association lists; lone surrogate escapes are rejected. -/

/-- A decoded JSON value (a dynamically-typed Python object). -/
inductive Json where
  | null
  | bool (b : Bool)
  | num (q : ℚ)
  | str (s : String)
  | arr (elems : List Json)
  | obj (fields : List (String × Json))
  | inf (neg : Bool)
  | nan

/-- Hex digit character for `k < 16` (lowercase, as `json.dumps` emits). -/
def hexDig (k : Nat) : Char :=
  if k < 10 then Char.ofNat (48 + k) else Char.ofNat (87 + k)

/-- `json.dumps` escaping of one character (`ensure_ascii=False`). -/
def escChar (c : Char) : List Char :=
  if c = '"' then ['\\', '"']
  else if c = '\\' then ['\\', '\\']
  else if c = '\n' then ['\\', 'n']
  else if c = '\t' then ['\\', 't']
  else if c = '\r' then ['\\', 'r']
  else if c = '\x08' then ['\\', 'b']
  else if c = '\x0c' then ['\\', 'f']
  else if c.toNat < 32 then ['\\', 'u', '0', '0', hexDig (c.toNat / 16), hexDig (c.toNat % 16)]
  else [c]

/-- Escaped body of a JSON string literal. -/
def escBody : List Char → List Char
  | [] => []
  | c :: cs => escChar c ++ escBody cs

/-- A JSON string literal for `s`. -/
def encStrChars (s : List Char) : List Char := '"' :: (escBody s ++ ['"'])

/-- The items of the encoded array after the first one, each preceded by
`", "`, closed by `]`. -/
def encTail : List String → List Char
  | [] => [']']
  | x :: xs => ',' :: ' ' :: (encStrChars x.data ++ encTail xs)

/-- The items of the encoded array, closed by `]`. -/
def encItems : List String → List Char
  | [] => [']']
  | x :: xs => encStrChars x.data ++ encTail xs

/-- `json.dumps(l, ensure_ascii=False)` for a list of strings. -/
def jsonDumpsList (l : List String) : String := ⟨'[' :: encItems l⟩

/-- JSON whitespace skipping (space, tab, newline, carriage return). -/
def jskipWs (cs : List Char) : List Char :=
  cs.dropWhile fun c => c = ' ' ∨ c = '\t' ∨ c = '\n' ∨ c = '\r'

/-- Value of a hex digit character, if any (both cases accepted). -/
def hexVal (c : Char) : Option Nat :=
  if 48 ≤ c.toNat ∧ c.toNat ≤ 57 then some (c.toNat - 48)
  else if 97 ≤ c.toNat ∧ c.toNat ≤ 102 then some (c.toNat - 87)
  else if 65 ≤ c.toNat ∧ c.toNat ≤ 70 then some (c.toNat - 55)
  else none

/-- Four hex digits (a `\uXXXX` escape payload). -/
def hex4 : List Char → Option (Nat × List Char)
  | h1 :: h2 :: h3 :: h4 :: r =>
    (hexVal h1).bind fun a =>
      (hexVal h2).bind fun b =>
        (hexVal h3).bind fun c =>
          (hexVal h4).bind fun d => some (a * 4096 + b * 256 + c * 16 + d, r)
  | _ => none

/-- A `\uXXXX` escape (with surrogate-pair handling): the decoded character
and the rest of the input.  Lone surrogates are rejected (Python would build
a lone-surrogate `str`, which `Char` cannot represent; unreachable from the
encoder). -/
def escU (r2 : List Char) : Option (Char × List Char) :=
  (hex4 r2).bind fun p =>
    if p.1 < 55296 ∨ 57344 ≤ p.1 then some (Char.ofNat p.1, p.2)
    else if p.1 < 56320 then
      match p.2 with
      | '\\' :: 'u' :: rr =>
        (hex4 rr).bind fun pw =>
          if 56320 ≤ pw.1 ∧ pw.1 < 57344 then
            some (Char.ofNat (65536 + (p.1 - 55296) * 1024 + (pw.1 - 56320)), pw.2)
          else none
      | _ => none
    else none

/-- Body of a JSON string literal after the opening quote (fuelled so that
it reduces; the fuel is always sufficient): returns the decoded characters
and the input after the closing quote. -/
def parseStrF : Nat → List Char → Option (List Char × List Char)
  | 0, _ => none
  | _ + 1, [] => none
  | fuel + 1, c :: r =>
    if c = '"' then some ([], r)
    else if c = '\\' then
      match r with
      | [] => none
      | e :: r2 =>
        if e = '"' then (parseStrF fuel r2).map fun p => ('"' :: p.1, p.2)
        else if e = '\\' then (parseStrF fuel r2).map fun p => ('\\' :: p.1, p.2)
        else if e = '/' then (parseStrF fuel r2).map fun p => ('/' :: p.1, p.2)
        else if e = 'b' then (parseStrF fuel r2).map fun p => ('\x08' :: p.1, p.2)
        else if e = 'f' then (parseStrF fuel r2).map fun p => ('\x0c' :: p.1, p.2)
        else if e = 'n' then (parseStrF fuel r2).map fun p => ('\n' :: p.1, p.2)
        else if e = 'r' then (parseStrF fuel r2).map fun p => ('\r' :: p.1, p.2)
        else if e = 't' then (parseStrF fuel r2).map fun p => ('\t' :: p.1, p.2)
        else if e = 'u' then
          match escU r2 with
          | some p => (parseStrF fuel p.2).map fun q => (p.1 :: q.1, q.2)
          | none => none
        else none
    else if c.toNat < 32 then none
    else (parseStrF fuel r).map fun p => (c :: p.1, p.2)

/-- Body of a JSON string literal after the opening quote. -/
def parseStrRest (cs : List Char) : Option (List Char × List Char) :=
  parseStrF (cs.length + 1) cs

/-- Fraction and exponent parts of a JSON number (the integer part has been
read); mirrors the `NUMBER_RE` used by Python's `json`. -/
def parseFracExp (ip : ℚ) (cs : List Char) : ℚ × List Char :=
  let (v1, cs1) : ℚ × List Char :=
    match cs with
    | '.' :: r =>
      let ds := r.takeWhile isDigitA
      if ds = [] then (ip, cs)
      else
        (mkRat (ip.num * 10 ^ ds.length + natOfDigits ds * (ip.den : ℤ)) (ip.den * 10 ^ ds.length),
          r.dropWhile isDigitA)
    | _ => (ip, cs)
  match cs1 with
  | e :: r =>
    if e = 'e' ∨ e = 'E' then
      let (pos, r1) : Bool × List Char :=
        match r with
        | '+' :: r2 => (true, r2)
        | '-' :: r2 => (false, r2)
        | r2 => (true, r2)
      let ds := r1.takeWhile isDigitA
      if ds = [] then (v1, cs1)
      else if pos then
        (mkRat (v1.num * 10 ^ natOfDigits ds) v1.den, r1.dropWhile isDigitA)
      else
        (mkRat v1.num (v1.den * 10 ^ natOfDigits ds), r1.dropWhile isDigitA)
    else (v1, cs1)
  | [] => (v1, [])

/-- A JSON number (strict grammar: `-? (0 | [1-9][0-9]*) frac? exp?`). -/
def parseNum (cs : List Char) : Option (Json × List Char) :=
  let (neg, cs1) : Bool × List Char :=
    match cs with
    | '-' :: r => (true, r)
    | r => (false, r)
  match cs1 with
  | c :: _ =>
    if c = '0' then
      let (v, rest) := parseFracExp (mkRat 0 1) cs1.tail
      some (.num (if neg then ratNeg v else v), rest)
    else if isDigitA c then
      let ds := cs1.takeWhile isDigitA
      let (v, rest) := parseFracExp (mkRat (natOfDigits ds) 1) (cs1.dropWhile isDigitA)
      some (.num (if neg then ratNeg v else v), rest)
    else none
  | [] => none

/-- Literal keyword helper. -/
def expectChars : List Char → List Char → Option (List Char)
  | [], cs => some cs
  | e :: es, c :: cs => if c = e then expectChars es cs else none
  | _ :: _, [] => none

mutual

/-- One JSON value (Python `json.loads` grammar). -/
def parseVal : Nat → List Char → Option (Json × List Char)
  | 0, _ => none
  | fuel + 1, cs =>
    match cs with
    | [] => none
    | c :: r =>
      if c = '"' then (parseStrRest r).map fun p => (.str ⟨p.1⟩, p.2)
      else if c = '[' then parseArrStart fuel (jskipWs r)
      else if c = '{' then parseObjStart fuel (jskipWs r)
      else if c = 'n' then (expectChars ['u', 'l', 'l'] r).map fun r2 => (.null, r2)
      else if c = 't' then (expectChars ['r', 'u', 'e'] r).map fun r2 => (.bool true, r2)
      else if c = 'f' then (expectChars ['a', 'l', 's', 'e'] r).map fun r2 => (.bool false, r2)
      else if c = 'N' then (expectChars ['a', 'N'] r).map fun r2 => (.nan, r2)
      else if c = 'I' then
        (expectChars ['n', 'f', 'i', 'n', 'i', 't', 'y'] r).map fun r2 => (.inf false, r2)
      else if c = '-' then
        match r with
        | 'I' :: r2 =>
          (expectChars ['n', 'f', 'i', 'n', 'i', 't', 'y'] r2).map fun r3 => (.inf true, r3)
        | _ => parseNum (c :: r)
      else parseNum (c :: r)

/-- Array after `[` (whitespace already skipped). -/
def parseArrStart : Nat → List Char → Option (Json × List Char)
  | 0, _ => none
  | fuel + 1, cs =>
    match cs with
    | [] => none
    | c :: r =>
      if c = ']' then some (.arr [], r)
      else do
        let p ← parseVal fuel (c :: r)
        parseArrTail fuel [p.1] p.2

/-- Array elements after the first: `,` more or `]`. -/
def parseArrTail : Nat → List Json → List Char → Option (Json × List Char)
  | 0, _, _ => none
  | fuel + 1, acc, cs =>
    match jskipWs cs with
    | [] => none
    | c :: r =>
      if c = ']' then some (.arr acc.reverse, r)
      else if c = ',' then do
        let p ← parseVal fuel (jskipWs r)
        parseArrTail fuel (p.1 :: acc) p.2
      else none

/-- Object after `{` (whitespace already skipped). -/
def parseObjStart : Nat → List Char → Option (Json × List Char)
  | 0, _ => none
  | fuel + 1, cs =>
    match cs with
    | [] => none
    | c :: r =>
      if c = '}' then some (.obj [], r)
      else if c = '"' then do
        let p ← parseStrRest r
        parseObjMem fuel [] ⟨p.1⟩ p.2
      else none

/-- Object member after its key: `:` value, then the tail. -/
def parseObjMem : Nat → List (String × Json) → String → List Char →
    Option (Json × List Char)
  | 0, _, _, _ => none
  | fuel + 1, acc, k, cs =>
    match jskipWs cs with
    | ':' :: r => do
      let p ← parseVal fuel (jskipWs r)
      parseObjTail fuel ((k, p.1) :: acc) p.2
    | _ => none

/-- Object members after the first: `,` more or `}`. -/
def parseObjTail : Nat → List (String × Json) → List Char → Option (Json × List Char)
  | 0, _, _ => none
  | fuel + 1, acc, cs =>
    match jskipWs cs with
    | '}' :: r => some (.obj acc.reverse, r)
    | ',' :: r =>
      (match jskipWs r with
       | '"' :: r2 => do
         let p ← parseStrRest r2
         parseObjMem fuel acc ⟨p.1⟩ p.2
       | _ => none)
    | _ => none

end

/-- Python `json.loads`: skip whitespace, one value, only whitespace after. -/
def jsonLoads (s : String) : Option Json :=
  match parseVal (s.data.length + 1) (jskipWs s.data) with
  | some (v, rest) => if jskipWs rest = [] then some v else none
  | none => none

/-! ## Repository decode path (`RecipeRepo._row_to_recipe`, lines 170-189) -/

/-- A value stored in an SQLite column (the classes reachable here). -/
inductive SqlVal where
  | null
  | int (i : Int)
  | text (s : String)
deriving DecidableEq

/-- A stored row of the `recipes` table.  `title` and `created_at` are
declared `NOT NULL` with `TEXT` affinity; `servings` has `INTEGER` affinity
but SQLite stores unconvertible text as text, so it is kept general. -/
structure Row where
  id : Int
  title : String
  ingredients : SqlVal
  instructions : SqlVal
  tags : SqlVal
  servings : SqlVal
  created_at : SqlVal
deriving DecidableEq

/-- Python `value or default` for a text-affinity column used as a string
(`None` and the empty string are falsy; an integer is rendered, `0` falsy). -/
def pyOrText (v : SqlVal) (d : String) : String :=
  match v with
  | .null => d
  | .text s => if s = "" then d else s
  | .int i => if i = 0 then d else pyStrInt i

/-- Python `str.splitlines()` line-break characters. -/
def isLineBrk (c : Char) : Bool :=
  c = '\n' ∨ c = '\r' ∨ c = '\x0b' ∨ c = '\x0c' ∨ c = '\x1c' ∨ c = '\x1d' ∨
    c = '\x1e' ∨ c.toNat = 133 ∨ c.toNat = 8232 ∨ c.toNat = 8233

/-- Python `str.splitlines()` worker, fuelled so that it reduces (the fuel
is always sufficient); no trailing empty line; `\r\n` is one break. -/
def pySplitlinesF : Nat → List Char → List Char → List (List Char)
  | 0, _, _ => []
  | _ + 1, [], acc => [acc.reverse]
  | fuel + 1, c :: rest, acc =>
    if c = '\r' ∧ rest.head? = some '\n' then
      acc.reverse :: (if rest.tail = [] then [] else pySplitlinesF fuel rest.tail [])
    else if isLineBrk c then
      acc.reverse :: (if rest = [] then [] else pySplitlinesF fuel rest [])
    else pySplitlinesF fuel rest (c :: acc)

/-- Python `str.splitlines()`. -/
def pySplitlines (cs : List Char) : List (List Char) :=
  if cs = [] then [] else pySplitlinesF (cs.length + 1) cs []

/-- `[x.strip() for x in parts if x.strip()]`. -/
def stripFilter (parts : List (List Char)) : List String :=
  (parts.map fun cs => (⟨stripChars cs⟩ : String)).filter fun s => s ≠ ""

/-- `[i.strip() for i in s.split(sep) if i.strip()]`. -/
def splitTrimFilter (sep : Char) (s : String) : List String :=
  stripFilter (splitChar sep s.data)

/-- Lines 174-179: `row["ingredients"] or "[]"`, then `json.loads`, falling
back on newline splitting when that raises.  The result is a dynamically
typed Python value, hence `Json`. -/
def decodeIngredients (v : SqlVal) : Json :=
  let ing := pyOrText v ("[]")
  match jsonLoads ing with
  | some j => j
  | none => Json.arr ((stripFilter (pySplitlines ing.data)).map Json.str)

/-- Line 187: `int(row["servings"] or 1)`. -/
def decodeServings : SqlVal → Except Unit Int
  | .null => .ok 1
  | .int i => if i = 0 then .ok 1 else .ok i
  | .text s => if s = "" then .ok 1 else pyIntStr s

/-- A decoded record as `_row_to_recipe` builds it (the ingredients field is
whatever `json.loads` produced, hence `Json`). -/
structure DecRecipe where
  id : Int
  title : String
  ingredients : Json
  instructions : String
  tags : List String
  servings : Int
  created_at : String

/-- `RecipeRepo._row_to_recipe` for a non-`None` row; `now` is the
timestamp `dt.datetime.utcnow().isoformat()` would produce.  The only
operation that can raise is the `int(...)` on `servings`. -/
def rowToRecipe (now : String) (row : Row) : Except Unit DecRecipe :=
  match decodeServings row.servings with
  | .error e => .error e
  | .ok sv =>
    .ok
      { id := row.id
        title := row.title
        ingredients := decodeIngredients row.ingredients
        instructions := pyOrText row.instructions ("")
        tags := splitTrimFilter ',' (pyOrText row.tags (""))
        servings := sv
        created_at := pyOrText row.created_at now }

/-! ## Search (`RecipeRepo.search`, lines 127-133) and `list_all`

SQLite `LIKE` with the default `case_sensitive_like` off: `%` matches any
sequence, `_` any single character, and ASCII letters compare case
insensitively. -/

/-- SQLite's ASCII case folding (`sqlite3UpperToLower`). -/
def foldA (c : Char) : Char :=
  if 65 ≤ c.toNat ∧ c.toNat ≤ 90 then Char.ofNat (c.toNat + 32) else c

/-- SQLite `LIKE` pattern matching, fuelled so that it reduces; the fuel is
always sufficient (every step shortens the pattern or the text). -/
def likeMatchF : Nat → List Char → List Char → Bool
  | 0, _, _ => false
  | _ + 1, [], s => s.isEmpty
  | fuel + 1, c :: p, s =>
    if c = '%' then
      likeMatchF fuel p s ||
        (match s with
         | [] => false
         | _ :: s1 => likeMatchF fuel (c :: p) s1)
    else
      match s with
      | [] => false
      | d :: s1 => (if c = '_' then true else foldA c = foldA d) && likeMatchF fuel p s1

/-- SQLite `LIKE` pattern matching (default, case-insensitive for ASCII). -/
def likeMatch (p s : List Char) : Bool := likeMatchF (p.length + s.length + 1) p s

/-- The pattern `f"%{q}%"` used by `search`. -/
def likePat (q : String) : List Char := '%' :: (q.data ++ ['%'])

/-- `column LIKE pattern` for a stored value (`NULL` never matches; a stored
integer is compared via its text rendering). -/
def sqlLikeVal (pat : List Char) (v : SqlVal) : Bool :=
  match v with
  | .null => false
  | .int i => likeMatch pat (pyStrInt i).data
  | .text s => likeMatch pat s.data

/-- The `WHERE` clause of `search`: title, tags or ingredients match. -/
def rowMatches (q : String) (r : Row) : Bool :=
  likeMatch (likePat q) r.title.data || sqlLikeVal (likePat q) r.tags ||
    sqlLikeVal (likePat q) r.ingredients

/-- Byte-order comparison of text values. -/
def charListLtB : List Char → List Char → Bool
  | [], [] => false
  | [], _ :: _ => true
  | _ :: _, [] => false
  | a :: as, b :: bs => a.toNat < b.toNat ∨ (a = b ∧ charListLtB as bs)

/-- Ordering of stored values (`NULL < INTEGER < TEXT`, integers by value,
text by byte order). -/
def sqlValLtB : SqlVal → SqlVal → Bool
  | .null, .null => false
  | .null, _ => true
  | .int _, .null => false
  | .int i, .int j => i < j
  | .int _, .text _ => true
  | .text _, .null => false
  | .text _, .int _ => false
  | .text a, .text b => charListLtB a.data b.data

/-- Insert into a list sorted by `created_at` descending (deterministic
stand-in for the store's `ORDER BY created_at DESC`). -/
def insertDesc (r : Row) : List Row → List Row
  | [] => [r]
  | x :: xs =>
    if sqlValLtB x.created_at r.created_at then r :: x :: xs else x :: insertDesc r xs

/-- `ORDER BY created_at DESC`. -/
def sortByCreatedDesc (db : List Row) : List Row := db.foldr insertDesc []

/-- Decode a list of rows in order (the list comprehension over
`cur.fetchall()`); the first raising row aborts. -/
def decodeRows (now : String) : List Row → Except Unit (List DecRecipe)
  | [] => .ok []
  | r :: rs =>
    match rowToRecipe now r with
    | .error e => .error e
    | .ok d =>
      match decodeRows now rs with
      | .error e => .error e
      | .ok ds => .ok (d :: ds)

/-- `RecipeRepo.search(q)` over a database state `db`. -/
def searchRepo (now : String) (db : List Row) (q : String) : Except Unit (List DecRecipe) :=
  decodeRows now (sortByCreatedDesc (db.filter (rowMatches q)))

/-- `RecipeRepo.list_all()` over a database state `db`. -/
def listAllRepo (now : String) (db : List Row) : Except Unit (List DecRecipe) :=
  decodeRows now (sortByCreatedDesc db)

/-! ## CSV bulk transfer (`import_csv` lines 135-151, `export_csv` 153-168)

The `csv` module's cell-level quoting is handled by the library; rows are
modelled at the cell level, where the pipe/comma encodings of this code
live.  `import_csv` constructs a `Recipe` per accepted row (the subsequent
`add` cannot fail in this model); rows created before a raising row are
not reported because the exception propagates out of `import_csv`. -/

/-- One parsed CSV row (`csv.DictReader` mapping; `none` = column absent). -/
structure CsvRow where
  title : Option String := none
  ingredients : Option String := none
  instructions : Option String := none
  tags : Option String := none
  servings : Option String := none
deriving DecidableEq

/-- An in-memory `Recipe` as the dataclass declares it (`id` is `None`
during import, so it is omitted here; `created_at` is the import-time
timestamp). -/
structure Recipe where
  title : String
  ingredients : List String
  instructions : String
  tags : List String
  servings : Int
  created_at : String
deriving DecidableEq

/-- Line 146: `int(row.get("servings", "1") or 1)`. -/
def csvServings : Option String → Except Unit Int
  | none => .ok 1
  | some s => if s = "" then .ok 1 else pyIntStr s

/-- The record built for one accepted CSV row with servings `sv`. -/
def mkImported (now : String) (row : CsvRow) (sv : Int) : Recipe :=
  { title := pyStripS (row.title.getD (""))
    ingredients := splitTrimFilter '|' (row.ingredients.getD (""))
    instructions := pyStripS (row.instructions.getD (""))
    tags := splitTrimFilter ',' (row.tags.getD (""))
    servings := sv
    created_at := now }

/-- `RecipeRepo.import_csv` over the parsed rows: skip blank titles, build
and count records, abort on the first raising row. -/
def importRows (now : String) : List CsvRow → Except Unit (Nat × List Recipe)
  | [] => .ok (0, [])
  | row :: rest =>
    if pyStripS (row.title.getD ("")) = "" then importRows now rest
    else
      match csvServings row.servings with
      | .error e => .error e
      | .ok sv =>
        match importRows now rest with
        | .error e => .error e
        | .ok (n, rs) => .ok (n + 1, mkImported now row sv :: rs)

/-- `RecipeRepo.export_csv` for one record: the cells `import_csv` reads
(`id`/`created_at` cells are also written but ignored on import). -/
def exportRow (r : Recipe) : CsvRow :=
  { title := some r.title
    ingredients := some ⟨joinChar '|' (r.ingredients.map String.data)⟩
    instructions := some r.instructions
    tags := some ⟨joinChar ',' (r.tags.map String.data)⟩
    servings := some (pyStrInt r.servings) }

/-! ## Basic lemmas: characters, digits, strip, split/join -/

theorem charToNat_ofNat (k : Nat) (h : k < 55296) : (Char.ofNat k).toNat = k := by
  rw [Char.ofNat, dif_pos (Or.inl h)]
  rfl

theorem char_eq_iff_toNat {a b : Char} : a = b ↔ a.toNat = b.toNat := by
  constructor
  · intro h
    rw [h]
  · intro h
    exact Char.ext (UInt32.ext_iff.mpr h)

theorem digitChar10_toNat {k : Nat} (h : k < 10) : (digitChar10 k).toNat = 48 + k := by
  unfold digitChar10
  exact charToNat_ofNat _ (by omega)

theorem isDigitA_digitChar10 {k : Nat} (h : k < 10) : isDigitA (digitChar10 k) = true := by
  simp [isDigitA, digitChar10_toNat h]
  omega

theorem isPySpace_eq_false_of_digit {c : Char} (h : isDigitA c = true) :
    isPySpace c = false := by
  simp only [isPySpace, decide_eq_false_iff_not]
  rintro (rfl | rfl | rfl | rfl | rfl | rfl) <;> revert h <;> decide

theorem dropWhile_eq_self_of_all_neg {p : Char → Bool} {cs : List Char}
    (h : ∀ c ∈ cs, p c = false) : cs.dropWhile p = cs := by
  cases cs with
  | nil => rfl
  | cons c rest => simp [List.dropWhile, h c (by simp)]

theorem stripChars_eq_self_of_no_space {cs : List Char}
    (h : ∀ c ∈ cs, isPySpace c = false) : stripChars cs = cs := by
  unfold stripChars
  rw [dropWhile_eq_self_of_all_neg h, dropWhile_eq_self_of_all_neg (by simpa using h),
    List.reverse_reverse]

theorem natDigitsAux_all_digits : ∀ fuel n, ∀ c ∈ natDigitsAux fuel n, isDigitA c = true := by
  intro fuel
  induction fuel with
  | zero => intro n c hc; simp [natDigitsAux] at hc
  | succ f ih =>
    intro n c hc
    rw [natDigitsAux] at hc
    by_cases h : n < 10
    · rw [if_pos h] at hc
      simp at hc
      subst hc
      exact isDigitA_digitChar10 h
    · rw [if_neg h] at hc
      simp at hc
      rcases hc with hc | hc
      · exact ih _ _ hc
      · subst hc
        exact isDigitA_digitChar10 (by omega)

theorem natDigits_all_digits {n : Nat} : ∀ c ∈ natDigits n, isDigitA c = true :=
  natDigitsAux_all_digits _ n

theorem natDigitsAux_ne_nil : ∀ {fuel n}, n < fuel → natDigitsAux fuel n ≠ [] := by
  intro fuel
  induction fuel with
  | zero => omega
  | succ f ih =>
    intro n _
    rw [natDigitsAux]
    by_cases h : n < 10
    · simp [if_pos h]
    · rw [if_neg h]
      simp

theorem natOfDigits_append_one (ds : List Char) (c : Char) :
    natOfDigits (ds ++ [c]) = natOfDigits ds * 10 + (c.toNat - 48) := by
  simp [natOfDigits, List.foldl_append]

theorem natOfDigits_natDigitsAux : ∀ {fuel n}, n < fuel →
    natOfDigits (natDigitsAux fuel n) = n := by
  intro fuel
  induction fuel with
  | zero => omega
  | succ f ih =>
    intro n hn
    rw [natDigitsAux]
    by_cases h : n < 10
    · simp [if_pos h, natOfDigits, digitChar10_toNat h]
    · rw [if_neg h, natOfDigits_append_one, ih (by omega),
        digitChar10_toNat (Nat.mod_lt _ (by omega))]
      omega

theorem natOfDigits_natDigits (n : Nat) : natOfDigits (natDigits n) = n :=
  natOfDigits_natDigitsAux (Nat.lt_succ_self n)

theorem digitsVal_natDigits (n : Nat) : digitsVal (natDigits n) = some n := by
  rw [digitsVal, if_pos, natOfDigits_natDigits]
  exact ⟨natDigitsAux_ne_nil (Nat.lt_succ_self n), List.all_eq_true.mpr natDigits_all_digits⟩

theorem pyStrInt_data_no_space (i : Int) : ∀ c ∈ (pyStrInt i).data, isPySpace c = false := by
  intro c hc
  unfold pyStrInt at hc
  by_cases h : i < 0
  · rw [if_pos h] at hc
    simp at hc
    rcases hc with rfl | hc
    · decide
    · exact isPySpace_eq_false_of_digit (natDigits_all_digits _ hc)
  · rw [if_neg h] at hc
    simp at hc
    exact isPySpace_eq_false_of_digit (natDigits_all_digits _ hc)

theorem pyStrInt_data (i : Int) :
    (pyStrInt i).data = if i < 0 then '-' :: natDigits i.natAbs else natDigits i.natAbs := by
  rw [pyStrInt]
  split <;> rfl

theorem pyIntStr_pyStrInt (i : Int) : pyIntStr (pyStrInt i) = .ok i := by
  rw [pyIntStr, stripChars_eq_self_of_no_space (pyStrInt_data_no_space i), pyStrInt_data]
  by_cases h : i < 0
  · rw [if_pos h]
    simp only [pyIntCore]
    rw [if_neg (show ¬('-' : Char) = '+' from by decide)]
    simp only [if_true, digitsVal_natDigits]
    simp only [Except.ok.injEq]
    omega
  · rw [if_neg h]
    obtain ⟨d, rest, hd⟩ : ∃ d rest, natDigits i.natAbs = d :: rest := by
      rcases hnil : natDigits i.natAbs with _ | ⟨d, rest⟩
      · exact absurd hnil (natDigitsAux_ne_nil (Nat.lt_succ_self _))
      · exact ⟨d, rest, rfl⟩
    rw [hd]
    have hdig : isDigitA d = true := natDigits_all_digits d (by rw [hd]; simp)
    have hd1 : ¬d = '+' := by
      intro h2
      subst h2
      revert hdig
      decide
    have hd2 : ¬d = '-' := by
      intro h2
      subst h2
      revert hdig
      decide
    simp only [pyIntCore, if_neg hd1, if_neg hd2]
    rw [← hd, digitsVal_natDigits]
    simp only [Except.ok.injEq]
    omega

theorem splitChar_no_sep {sep : Char} : ∀ {a : List Char}, sep ∉ a →
    splitChar sep a = [a] := by
  intro a
  induction a with
  | nil => intro _; rfl
  | cons c rest ih =>
    intro h
    rw [splitChar, if_neg (by
      intro hc
      exact h (by simp [hc])), ih (by intro hm; exact h (by simp [hm]))]

theorem splitChar_append {sep : Char} : ∀ {a : List Char} (t : List Char), sep ∉ a →
    splitChar sep (a ++ sep :: t) = a :: splitChar sep t := by
  intro a
  induction a with
  | nil =>
    intro t _
    simp only [List.nil_append]
    rw [splitChar, if_pos rfl]
  | cons c rest ih =>
    intro t h
    simp only [List.cons_append]
    rw [splitChar, if_neg (by
      intro hc
      exact h (by simp [hc])), ih t (by intro hm; exact h (by simp [hm]))]

theorem string_mk_data (s : String) : (⟨s.data⟩ : String) = s := rfl

theorem string_eq_empty_iff {s : String} : s = "" ↔ s.data = [] := by
  constructor
  · intro h
    rw [h]
  · intro h
    cases s
    simp_all

theorem stripFilter_cons (a : List Char) (parts : List (List Char)) :
    stripFilter (a :: parts) =
      if (⟨stripChars a⟩ : String) ≠ "" then (⟨stripChars a⟩ : String) :: stripFilter parts
      else stripFilter parts := by
  simp only [stripFilter, List.map_cons, List.filter_cons]
  split <;> simp_all

/-- Splitting a pipe/comma-joined encoding recovers the original items when
each item is trimmed, non-empty, and free of the separator. -/
theorem splitTrimFilter_joinChar (sep : Char) :
    ∀ (l : List String),
      (∀ x ∈ l, stripChars x.data = x.data ∧ x ≠ "" ∧ sep ∉ x.data) →
      splitTrimFilter sep ⟨joinChar sep (l.map String.data)⟩ = l := by
  intro l
  induction l with
  | nil => intro _; rfl
  | cons x xs ih =>
    intro h
    obtain ⟨hx, hxs⟩ : (stripChars x.data = x.data ∧ x ≠ "" ∧ sep ∉ x.data) ∧
        ∀ y ∈ xs, stripChars y.data = y.data ∧ y ≠ "" ∧ sep ∉ y.data := by
      constructor
      · exact h x (by simp)
      · intro y hy
        exact h y (by simp [hy])
    rcases xs with _ | ⟨y, ys⟩
    · show stripFilter (splitChar sep (joinChar sep [x.data])) = [x]
      rw [show joinChar sep [x.data] = x.data from rfl, splitChar_no_sep hx.2.2,
        show stripFilter [x.data] = _ from stripFilter_cons x.data []]
      rw [hx.1, string_mk_data, if_pos hx.2.1]
      rfl
    · show stripFilter (splitChar sep (joinChar sep (x.data :: (y :: ys).map String.data))) = _
      rw [show joinChar sep (x.data :: (y :: ys).map String.data) =
          x.data ++ sep :: joinChar sep ((y :: ys).map String.data) from rfl,
        splitChar_append _ hx.2.2, stripFilter_cons, hx.1, string_mk_data, if_pos hx.2.1]
      have := ih hxs
      rw [splitTrimFilter] at this
      rw [show (⟨joinChar sep ((y :: ys).map String.data)⟩ : String).data =
          joinChar sep ((y :: ys).map String.data) from rfl] at this
      rw [this]

theorem pyStrInt_ne_empty (i : Int) : pyStrInt i ≠ "" := by
  intro h
  rw [string_eq_empty_iff, pyStrInt_data] at h
  by_cases hi : i < 0
  · rw [if_pos hi] at h
    exact absurd h (by simp)
  · rw [if_neg hi] at h
    exact natDigitsAux_ne_nil (Nat.lt_succ_self _) h

theorem pyStripS_of_stripped {s : String} (h : stripChars s.data = s.data) :
    pyStripS s = s := by
  rw [pyStripS, h]

/-- Core of the CSV round trip: `import_csv` of the row `export_csv` writes
reconstructs the record (with the import-time `created_at`). -/
theorem importRows_exportRow (now : String) (r : Recipe)
    (htitle : stripChars r.title.data = r.title.data) (htne : r.title ≠ "")
    (hing : ∀ x ∈ r.ingredients, stripChars x.data = x.data ∧ x ≠ "" ∧ '|' ∉ x.data)
    (htags : ∀ x ∈ r.tags, stripChars x.data = x.data ∧ x ≠ "" ∧ ',' ∉ x.data)
    (hins : stripChars r.instructions.data = r.instructions.data) :
    importRows now [exportRow r] = .ok (1, [{ r with created_at := now }]) := by
  have hT : pyStripS ((exportRow r).title.getD ("")) = r.title := by
    simp only [exportRow, Option.getD_some]
    exact pyStripS_of_stripped htitle
  simp only [importRows, hT, if_neg htne]
  have hS : csvServings (exportRow r).servings = .ok r.servings := by
    simp only [exportRow, csvServings]
    rw [if_neg (pyStrInt_ne_empty r.servings), pyIntStr_pyStrInt]
  rw [hS]
  simp only [Except.ok.injEq, Prod.mk.injEq, true_and]
  simp only [mkImported, exportRow, Option.getD_some, List.cons.injEq, and_true]
  have e1 : pyStripS r.title = r.title := pyStripS_of_stripped htitle
  have e2 : pyStripS r.instructions = r.instructions := pyStripS_of_stripped hins
  have e3 : splitTrimFilter '|' ⟨joinChar '|' (r.ingredients.map String.data)⟩ =
      r.ingredients := splitTrimFilter_joinChar '|' r.ingredients hing
  have e4 : splitTrimFilter ',' ⟨joinChar ',' (r.tags.map String.data)⟩ =
      r.tags := splitTrimFilter_joinChar ',' r.tags htags
  rw [e1, e2, e3, e4]

theorem pySplitlinesF_fuel_irrel : ∀ (f1 : Nat) {f2 : Nat} {cs acc : List Char},
    cs.length < f1 → cs.length < f2 → pySplitlinesF f1 cs acc = pySplitlinesF f2 cs acc := by
  intro f1
  induction f1 with
  | zero => intro f2 cs acc h1 _; omega
  | succ f ih =>
    intro f2 cs acc h1 h2
    rcases f2 with _ | g
    · omega
    rcases cs with _ | ⟨c, rest⟩
    · rfl
    have hr1 : rest.length < f := by simp at h1; omega
    have hr2 : rest.length < g := by simp at h2; omega
    have hrt1 : rest.tail.length < f := by
      have := List.length_tail rest
      omega
    have hrt2 : rest.tail.length < g := by
      have := List.length_tail rest
      omega
    rw [pySplitlinesF, pySplitlinesF]
    by_cases hc : c = '\r' ∧ rest.head? = some '\n'
    · rw [if_pos hc, if_pos hc]
      by_cases ht : rest.tail = []
      · rw [if_pos ht, if_pos ht]
      · rw [if_neg ht, if_neg ht, ih hrt1 hrt2]
    · rw [if_neg hc, if_neg hc]
      by_cases hb : isLineBrk c = true
      · rw [if_pos hb, if_pos hb]
        by_cases ht : rest = []
        · rw [if_pos ht, if_pos ht]
        · rw [if_neg ht, if_neg ht, ih hr1 hr2]
      · rw [if_neg hb, if_neg hb, ih hr1 hr2]

theorem pySplitlinesF_no_break : ∀ (a : List Char) {fuel : Nat} (acc : List Char),
    (∀ c ∈ a, isLineBrk c = false) → a.length < fuel →
    pySplitlinesF fuel a acc = [acc.reverse ++ a] := by
  intro a
  induction a with
  | nil =>
    intro fuel acc _ hf
    rcases fuel with _ | f
    · omega
    simp [pySplitlinesF]
  | cons c rest ih =>
    intro fuel acc h hf
    rcases fuel with _ | f
    · omega
    have hc : isLineBrk c = false := h c (by simp)
    have hcr : ¬c = '\r' := by
      intro h2
      subst h2
      revert hc
      decide
    rw [pySplitlinesF, if_neg (by rintro ⟨h3, _⟩; exact hcr h3), if_neg (by simp [hc]),
      ih (c :: acc) (fun d hd => h d (by simp [hd])) (by simp at hf ⊢; omega)]
    simp

theorem pySplitlinesF_break_step : ∀ (a : List Char) {fuel : Nat} (acc t : List Char),
    (∀ c ∈ a, isLineBrk c = false) → t ≠ [] → a.length + 1 + t.length < fuel →
    pySplitlinesF fuel (a ++ '\n' :: t) acc =
      (acc.reverse ++ a) :: pySplitlinesF (t.length + 1) t [] := by
  intro a
  induction a with
  | nil =>
    intro fuel acc t _ ht hf
    rcases fuel with _ | f
    · omega
    simp only [List.nil_append]
    rw [pySplitlinesF, if_neg (by rintro ⟨h3, _⟩; exact absurd h3 (by decide)),
      if_pos (by decide), if_neg ht,
      @pySplitlinesF_fuel_irrel f (t.length + 1) t [] (by simp at hf; omega) (by omega)]
    simp
  | cons c rest ih =>
    intro fuel acc t h ht hf
    rcases fuel with _ | f
    · omega
    have hc : isLineBrk c = false := h c (by simp)
    have hcr : ¬c = '\r' := by
      intro h2
      subst h2
      revert hc
      decide
    simp only [List.cons_append]
    rw [pySplitlinesF, if_neg (by rintro ⟨h3, _⟩; exact hcr h3), if_neg (by simp [hc]),
      ih (c :: acc) t (fun d hd => h d (by simp [hd])) ht (by simp at hf ⊢; omega)]
    simp

theorem joinNl_ne_nil {z : String} (zs : List String) (hz : z ≠ "") :
    joinChar '\n' ((z :: zs).map String.data) ≠ [] := by
  rcases zs with _ | ⟨y, ys⟩
  · show z.data ≠ []
    exact fun h => hz (string_eq_empty_iff.mpr h)
  · show z.data ++ '\n' :: joinChar '\n' ((y :: ys).map String.data) ≠ []
    simp

/-- The legacy fallback on a newline-joined list of trimmed, non-blank,
break-free lines recovers exactly those lines. -/
theorem stripFilter_splitlines_join : ∀ (lines : List String),
    (∀ x ∈ lines, stripChars x.data = x.data ∧ x ≠ "" ∧ ∀ c ∈ x.data, isLineBrk c = false) →
    stripFilter (pySplitlines (joinChar '\n' (lines.map String.data))) = lines := by
  intro lines
  induction lines with
  | nil => intro _; rfl
  | cons x xs ih =>
    intro h
    have hx := h x (by simp)
    rcases xs with _ | ⟨y, ys⟩
    · show stripFilter (pySplitlines x.data) = [x]
      have hne : x.data ≠ [] := fun h2 => hx.2.1 (string_eq_empty_iff.mpr h2)
      rw [pySplitlines, if_neg hne,
        pySplitlinesF_no_break x.data [] hx.2.2 (Nat.lt_succ_self _)]
      rw [show ([] : List Char).reverse ++ x.data = x.data by simp, stripFilter_cons,
        hx.1, string_mk_data, if_pos hx.2.1]
      rfl
    · show stripFilter (pySplitlines (x.data ++ '\n' :: joinChar '\n' ((y :: ys).map String.data))) = _
      have htne : joinChar '\n' ((y :: ys).map String.data) ≠ [] :=
        joinNl_ne_nil ys (h y (by simp)).2.1
      rw [pySplitlines, if_neg (by simp),
        pySplitlinesF_break_step x.data [] _ hx.2.2 htne
          (by simp only [List.length_append, List.length_cons]; omega)]
      rw [show ([] : List Char).reverse ++ x.data = x.data by simp, stripFilter_cons,
        hx.1, string_mk_data, if_pos hx.2.1]
      have hrec := ih (fun z hz => h z (by simp [hz]))
      rw [pySplitlines, if_neg htne] at hrec
      rw [hrec]


theorem hexVal_hexDig {k : Nat} (h : k < 16) : hexVal (hexDig k) = some k := by
  interval_cases k <;> decide

theorem hex4_enc {a b : Nat} (r : List Char) (ha : a < 16) (hb : b < 16) :
    hex4 ('0' :: '0' :: hexDig a :: hexDig b :: r) = some (a * 16 + b, r) := by
  simp only [hex4]
  rw [show hexVal '0' = some 0 from rfl, hexVal_hexDig ha, hexVal_hexDig hb]
  simp

theorem escU_enc {c : Char} (r : List Char) (h : c.toNat < 32) :
    escU ('0' :: '0' :: hexDig (c.toNat / 16) :: hexDig (c.toNat % 16) :: r) =
      some (c, r) := by
  simp only [escU]
  rw [hex4_enc r (by omega) (by omega),
    show c.toNat / 16 * 16 + c.toNat % 16 = c.toNat from by omega]
  simp only [Option.some_bind]
  rw [if_pos (Or.inl (by omega : c.toNat < 55296)), Char.ofNat_toNat]

/-- Decoding an escaped string body recovers the original characters. -/
theorem parseStrF_escBody : ∀ (s : List Char) {fuel : Nat} (rest : List Char),
    (escBody s ++ '"' :: rest).length < fuel →
    parseStrF fuel (escBody s ++ '"' :: rest) = some (s, rest) := by
  intro s
  induction s with
  | nil =>
    intro fuel rest hf
    rcases fuel with _ | f
    · simp at hf
    rfl
  | cons c cs ih =>
    intro fuel rest hf
    rw [show escBody (c :: cs) = escChar c ++ escBody cs from rfl] at hf ⊢
    by_cases h1 : c = '"'
    · subst h1
      rcases fuel with _ | f
      · simp at hf
      rw [show escChar '"' = ['\\', '"'] from rfl] at hf ⊢
      rw [show (['\\', '"'] ++ escBody cs) ++ '"' :: rest =
          '\\' :: '"' :: (escBody cs ++ '"' :: rest) from by simp,
        show parseStrF (f + 1) ('\\' :: '"' :: (escBody cs ++ '"' :: rest)) =
          (parseStrF f (escBody cs ++ '"' :: rest)).map (fun p => ('"' :: p.1, p.2))
          from rfl,
        ih rest (by simp at hf ⊢; omega)]
      rfl
    · by_cases h2 : c = '\\'
      · subst h2
        rcases fuel with _ | f
        · simp at hf
        rw [show escChar '\\' = ['\\', '\\'] from rfl] at hf ⊢
        rw [show (['\\', '\\'] ++ escBody cs) ++ '"' :: rest =
            '\\' :: '\\' :: (escBody cs ++ '"' :: rest) from by simp,
          show parseStrF (f + 1) ('\\' :: '\\' :: (escBody cs ++ '"' :: rest)) =
            (parseStrF f (escBody cs ++ '"' :: rest)).map (fun p => ('\\' :: p.1, p.2))
            from rfl,
          ih rest (by simp at hf ⊢; omega)]
        rfl
      · by_cases h3 : c = '\n'
        · subst h3
          rcases fuel with _ | f
          · simp at hf
          rw [show escChar '\n' = ['\\', 'n'] from rfl] at hf ⊢
          rw [show (['\\', 'n'] ++ escBody cs) ++ '"' :: rest =
              '\\' :: 'n' :: (escBody cs ++ '"' :: rest) from by simp,
            show parseStrF (f + 1) ('\\' :: 'n' :: (escBody cs ++ '"' :: rest)) =
              (parseStrF f (escBody cs ++ '"' :: rest)).map (fun p => ('\n' :: p.1, p.2))
              from rfl,
            ih rest (by simp at hf ⊢; omega)]
          rfl
        · by_cases h4 : c = '\t'
          · subst h4
            rcases fuel with _ | f
            · simp at hf
            rw [show escChar '\t' = ['\\', 't'] from rfl] at hf ⊢
            rw [show (['\\', 't'] ++ escBody cs) ++ '"' :: rest =
                '\\' :: 't' :: (escBody cs ++ '"' :: rest) from by simp,
              show parseStrF (f + 1) ('\\' :: 't' :: (escBody cs ++ '"' :: rest)) =
                (parseStrF f (escBody cs ++ '"' :: rest)).map (fun p => ('\t' :: p.1, p.2))
                from rfl,
              ih rest (by simp at hf ⊢; omega)]
            rfl
          · by_cases h5 : c = '\r'
            · subst h5
              rcases fuel with _ | f
              · simp at hf
              rw [show escChar '\r' = ['\\', 'r'] from rfl] at hf ⊢
              rw [show (['\\', 'r'] ++ escBody cs) ++ '"' :: rest =
                  '\\' :: 'r' :: (escBody cs ++ '"' :: rest) from by simp,
                show parseStrF (f + 1) ('\\' :: 'r' :: (escBody cs ++ '"' :: rest)) =
                  (parseStrF f (escBody cs ++ '"' :: rest)).map (fun p => ('\r' :: p.1, p.2))
                  from rfl,
                ih rest (by simp at hf ⊢; omega)]
              rfl
            · by_cases h6 : c = '\x08'
              · subst h6
                rcases fuel with _ | f
                · simp at hf
                rw [show escChar '\x08' = ['\\', 'b'] from rfl] at hf ⊢
                rw [show (['\\', 'b'] ++ escBody cs) ++ '"' :: rest =
                    '\\' :: 'b' :: (escBody cs ++ '"' :: rest) from by simp,
                  show parseStrF (f + 1) ('\\' :: 'b' :: (escBody cs ++ '"' :: rest)) =
                    (parseStrF f (escBody cs ++ '"' :: rest)).map
                      (fun p => ('\x08' :: p.1, p.2)) from rfl,
                  ih rest (by simp at hf ⊢; omega)]
                rfl
              · by_cases h7 : c = '\x0c'
                · subst h7
                  rcases fuel with _ | f
                  · simp at hf
                  rw [show escChar '\x0c' = ['\\', 'f'] from rfl] at hf ⊢
                  rw [show (['\\', 'f'] ++ escBody cs) ++ '"' :: rest =
                      '\\' :: 'f' :: (escBody cs ++ '"' :: rest) from by simp,
                    show parseStrF (f + 1) ('\\' :: 'f' :: (escBody cs ++ '"' :: rest)) =
                      (parseStrF f (escBody cs ++ '"' :: rest)).map
                        (fun p => ('\x0c' :: p.1, p.2)) from rfl,
                    ih rest (by simp at hf ⊢; omega)]
                  rfl
                · by_cases h8 : c.toNat < 32
                  · rcases fuel with _ | f
                    · simp at hf
                    have hesc : escChar c = ['\\', 'u', '0', '0',
                        hexDig (c.toNat / 16), hexDig (c.toNat % 16)] := by
                      rw [escChar, if_neg h1, if_neg h2, if_neg h3, if_neg h4, if_neg h5,
                        if_neg h6, if_neg h7, if_pos h8]
                    rw [hesc] at hf ⊢
                    rw [show (['\\', 'u', '0', '0', hexDig (c.toNat / 16),
                        hexDig (c.toNat % 16)] ++ escBody cs) ++ '"' :: rest =
                        '\\' :: 'u' :: ('0' :: '0' :: hexDig (c.toNat / 16) ::
                          hexDig (c.toNat % 16) :: (escBody cs ++ '"' :: rest))
                        from by simp,
                      show parseStrF (f + 1) ('\\' :: 'u' :: ('0' :: '0' ::
                          hexDig (c.toNat / 16) :: hexDig (c.toNat % 16) ::
                          (escBody cs ++ '"' :: rest))) =
                        (match escU ('0' :: '0' :: hexDig (c.toNat / 16) ::
                            hexDig (c.toNat % 16) :: (escBody cs ++ '"' :: rest)) with
                          | some p => (parseStrF f p.2).map fun q => (p.1 :: q.1, q.2)
                          | none => none) from rfl,
                      escU_enc _ h8]
                    rw [show (match some (c, escBody cs ++ '"' :: rest) with
                        | some p => (parseStrF f p.2).map fun q => (p.1 :: q.1, q.2)
                        | none => none) =
                        (parseStrF f (escBody cs ++ '"' :: rest)).map
                          (fun q => (c :: q.1, q.2)) from rfl,
                      ih rest (by simp at hf ⊢; omega)]
                    rfl
                  · rcases fuel with _ | f
                    · simp at hf
                    have hesc : escChar c = [c] := by
                      rw [escChar, if_neg h1, if_neg h2, if_neg h3, if_neg h4, if_neg h5,
                        if_neg h6, if_neg h7, if_neg h8]
                    rw [hesc] at hf ⊢
                    rw [show ([c] ++ escBody cs) ++ '"' :: rest =
                        c :: (escBody cs ++ '"' :: rest) from by simp]
                    simp only [parseStrF]
                    rw [if_neg h1, if_neg h2, if_neg (by omega : ¬c.toNat < 32),
                      ih rest (by simp at hf ⊢; omega)]
                    rfl

/-- Decoding an encoded string literal body. -/
theorem parseStrRest_escBody (s rest : List Char) :
    parseStrRest (escBody s ++ '"' :: rest) = some (s, rest) :=
  parseStrF_escBody s rest (Nat.lt_succ_self _)

theorem encTail_length_gt : ∀ l : List String, l.length < (encTail l).length := by
  intro l
  induction l with
  | nil => simp [encTail]
  | cons x xs ih =>
    show xs.length + 1 < (',' :: ' ' :: (encStrChars x.data ++ encTail xs)).length
    simp only [List.length_cons, List.length_append]
    omega

theorem parseArrTail_encTail : ∀ (l : List String) {fuel : Nat} (acc : List Json),
    l.length < fuel →
    parseArrTail fuel acc (encTail l) =
      some (.arr (acc.reverse ++ l.map Json.str), []) := by
  intro l
  induction l with
  | nil =>
    intro fuel acc hf
    rcases fuel with _ | f
    · omega
    rw [show encTail [] = [']'] from rfl,
      show parseArrTail (f + 1) acc [']'] = some (.arr acc.reverse, []) from rfl]
    simp
  | cons x xs ih =>
    intro fuel acc hf
    rcases fuel with _ | f
    · omega
    rw [show encTail (x :: xs) = ',' :: ' ' :: '"' ::
        (escBody x.data ++ '"' :: encTail xs) from by
      show (',' :: ' ' :: (encStrChars x.data ++ encTail xs)) = _
      simp [encStrChars],
      show parseArrTail (f + 1) acc (',' :: ' ' :: '"' ::
        (escBody x.data ++ '"' :: encTail xs)) = (do
          let p ← parseVal f ('"' :: (escBody x.data ++ '"' :: encTail xs))
          parseArrTail f (p.1 :: acc) p.2) from rfl]
    rcases f with _ | f1
    · simp at hf
    rw [show parseVal (f1 + 1) ('"' :: (escBody x.data ++ '"' :: encTail xs)) =
        (parseStrRest (escBody x.data ++ '"' :: encTail xs)).map
          (fun p => (Json.str ⟨p.1⟩, p.2)) from rfl,
      parseStrRest_escBody]
    rw [show ((some (x.data, encTail xs)).map
        (fun p => (Json.str ⟨p.1⟩, p.2))) = some (Json.str x, encTail xs) from rfl]
    rw [show (do
        let p ← some (Json.str x, encTail xs)
        parseArrTail (f1 + 1) (p.1 :: acc) p.2) =
        parseArrTail (f1 + 1) (Json.str x :: acc) (encTail xs) from rfl,
      ih (Json.str x :: acc) (by simp at hf; omega)]
    simp

/-- `json.loads` of `json.dumps(list_of_strings)` recovers the list. -/
theorem jsonLoads_jsonDumpsList (l : List String) :
    jsonLoads (jsonDumpsList l) = some (.arr (l.map Json.str)) := by
  rcases l with _ | ⟨x, xs⟩
  · rfl
  rw [jsonLoads]
  rw [show (jsonDumpsList (x :: xs)).data = '[' :: encItems (x :: xs) from rfl]
  rw [show ('[' :: encItems (x :: xs)).length + 1 = ((encItems (x :: xs)).length + 1) + 1
      from by simp]
  rw [show jskipWs ('[' :: encItems (x :: xs)) = '[' :: encItems (x :: xs) from rfl]
  rw [show parseVal (((encItems (x :: xs)).length + 1) + 1) ('[' :: encItems (x :: xs)) =
      parseArrStart ((encItems (x :: xs)).length + 1) (jskipWs (encItems (x :: xs)))
      from rfl]
  rw [show encItems (x :: xs) = '"' :: (escBody x.data ++ '"' :: encTail xs) from by
    show encStrChars x.data ++ encTail xs = _
    simp [encStrChars]]
  rw [show jskipWs ('"' :: (escBody x.data ++ '"' :: encTail xs)) =
      '"' :: (escBody x.data ++ '"' :: encTail xs) from rfl]
  rw [show parseArrStart (('"' :: (escBody x.data ++ '"' :: encTail xs)).length + 1)
      ('"' :: (escBody x.data ++ '"' :: encTail xs)) = (do
        let p ← parseVal (('"' :: (escBody x.data ++ '"' :: encTail xs)).length)
          ('"' :: (escBody x.data ++ '"' :: encTail xs))
        parseArrTail (('"' :: (escBody x.data ++ '"' :: encTail xs)).length)
          [p.1] p.2) from rfl]
  rw [show ('"' :: (escBody x.data ++ '"' :: encTail xs)).length =
      (escBody x.data ++ '"' :: encTail xs).length + 1 from by simp]
  rw [show parseVal ((escBody x.data ++ '"' :: encTail xs).length + 1)
      ('"' :: (escBody x.data ++ '"' :: encTail xs)) =
      (parseStrRest (escBody x.data ++ '"' :: encTail xs)).map
        (fun p => (Json.str ⟨p.1⟩, p.2)) from rfl,
    parseStrRest_escBody]
  rw [show ((some (x.data, encTail xs)).map
      (fun p => (Json.str ⟨p.1⟩, p.2))) = some (Json.str x, encTail xs) from rfl]
  rw [show (do
      let p ← some (Json.str x, encTail xs)
      parseArrTail ((escBody x.data ++ '"' :: encTail xs).length + 1) (p.1 :: []) p.2) =
      parseArrTail ((escBody x.data ++ '"' :: encTail xs).length + 1)
        [Json.str x] (encTail xs) from rfl]
  rw [parseArrTail_encTail xs [Json.str x] (by
    have := encTail_length_gt xs
    simp only [List.length_append, List.length_cons]
    omega)]
  rw [show (match some (Json.arr ([Json.str x].reverse ++ List.map Json.str xs), ([] : List Char)) with
      | some (v, rest) => if jskipWs rest = [] then some v else none
      | none => none) =
      some (Json.arr ([Json.str x].reverse ++ List.map Json.str xs)) from rfl]
  simp

theorem foldA_toNat (c : Char) :
    (foldA c).toNat = if 65 ≤ c.toNat ∧ c.toNat ≤ 90 then c.toNat + 32 else c.toNat := by
  rw [foldA]
  split
  · next h => exact charToNat_ofNat _ (by omega)
  · rfl

theorem foldA_eq_special {a b : Char} (h : foldA a = foldA b) (k : Nat)
    (hk1 : ¬(65 ≤ k ∧ k ≤ 90)) (hk2 : ¬(97 ≤ k ∧ k ≤ 122)) :
    a.toNat = k ↔ b.toNat = k := by
  have h2 : (foldA a).toNat = (foldA b).toNat := by rw [h]
  rw [foldA_toNat, foldA_toNat] at h2
  split at h2 <;> split at h2 <;> omega

theorem likeMatchF_pct : ∀ (s : List Char) {fuel : Nat}, 1 + s.length < fuel →
    likeMatchF fuel ['%'] s = true := by
  intro s
  induction s with
  | nil =>
    intro fuel hf
    rcases fuel with _ | _ | f
    · omega
    · omega
    rfl
  | cons d s1 ih =>
    intro fuel hf
    rcases fuel with _ | f
    · omega
    rw [show likeMatchF (f + 1) ['%'] (d :: s1) =
        (likeMatchF f [] (d :: s1) || likeMatchF f ['%'] s1) from rfl,
      ih (by simp at hf ⊢; omega)]
    simp

theorem likeMatchF_pct2 : ∀ (s : List Char) {fuel : Nat}, 2 + s.length < fuel →
    likeMatchF fuel ['%', '%'] s = true := by
  intro s fuel hf
  rcases fuel with _ | f
  · omega
  rcases s with _ | ⟨d, s1⟩
  · rw [show likeMatchF (f + 1) ['%', '%'] [] = (likeMatchF f ['%'] [] || false) from rfl,
      likeMatchF_pct [] (by simp; omega)]
    rfl
  · rw [show likeMatchF (f + 1) ['%', '%'] (d :: s1) =
        (likeMatchF f ['%'] (d :: s1) || likeMatchF f ['%', '%'] s1) from rfl,
      likeMatchF_pct (d :: s1) (by simp at hf ⊢; omega)]
    rfl

theorem likeMatchF_congr : ∀ (fuel : Nat) (p1 p2 s : List Char),
    p1.map foldA = p2.map foldA → likeMatchF fuel p1 s = likeMatchF fuel p2 s := by
  intro fuel
  induction fuel with
  | zero => intro p1 p2 s _; rfl
  | succ f ih =>
    intro p1 p2 s h
    rcases p1 with _ | ⟨c1, q1⟩ <;> rcases p2 with _ | ⟨c2, q2⟩
    · rfl
    · simp at h
    · simp at h
    simp only [List.map_cons, List.cons.injEq] at h
    obtain ⟨hc, hq⟩ := h
    by_cases h1 : c1 = '%'
    · have h2 : c2 = '%' := by
        rw [char_eq_iff_toNat]
        exact (foldA_eq_special hc 37 (by omega) (by omega)).mp (by rw [h1]; rfl)
      subst h1
      subst h2
      rcases s with _ | ⟨d, s1⟩
      · rw [show likeMatchF (f + 1) ('%' :: q1) [] =
            (likeMatchF f q1 [] || false) from rfl,
          show likeMatchF (f + 1) ('%' :: q2) [] =
            (likeMatchF f q2 [] || false) from rfl,
          ih q1 q2 [] hq]
      · rw [show likeMatchF (f + 1) ('%' :: q1) (d :: s1) =
            (likeMatchF f q1 (d :: s1) || likeMatchF f ('%' :: q1) s1) from rfl,
          show likeMatchF (f + 1) ('%' :: q2) (d :: s1) =
            (likeMatchF f q2 (d :: s1) || likeMatchF f ('%' :: q2) s1) from rfl,
          ih q1 q2 (d :: s1) hq, ih ('%' :: q1) ('%' :: q2) s1 (by simp [hq])]
    · have h2 : ¬c2 = '%' := by
        intro hx
        apply h1
        rw [char_eq_iff_toNat]
        exact (foldA_eq_special hc 37 (by omega) (by omega)).mpr (by rw [hx]; rfl)
      simp only [likeMatchF, if_neg h1, if_neg h2]
      rcases s with _ | ⟨d, s1⟩
      · rfl
      rw [show (match d :: s1 with
          | [] => false
          | d :: s1 =>
            (if c1 = '_' then true else decide (foldA c1 = foldA d)) && likeMatchF f q1 s1) =
          ((if c1 = '_' then true else decide (foldA c1 = foldA d)) && likeMatchF f q1 s1)
          from rfl,
        show (match d :: s1 with
          | [] => false
          | d :: s1 =>
            (if c2 = '_' then true else decide (foldA c2 = foldA d)) && likeMatchF f q2 s1) =
          ((if c2 = '_' then true else decide (foldA c2 = foldA d)) && likeMatchF f q2 s1)
          from rfl]
      by_cases hu1 : c1 = '_'
      · have hu2 : c2 = '_' := by
          rw [char_eq_iff_toNat]
          exact (foldA_eq_special hc 95 (by omega) (by omega)).mp (by rw [hu1]; rfl)
        rw [if_pos hu1, if_pos hu2, ih q1 q2 s1 hq]
      · have hu2 : ¬c2 = '_' := by
          intro hx
          apply hu1
          rw [char_eq_iff_toNat]
          exact (foldA_eq_special hc 95 (by omega) (by omega)).mpr (by rw [hx]; rfl)
        rw [if_neg hu1, if_neg hu2, ih q1 q2 s1 hq, hc]

theorem likeMatch_congr {p1 p2 : List Char} (s : List Char)
    (h : p1.map foldA = p2.map foldA) : likeMatch p1 s = likeMatch p2 s := by
  have hlen : p1.length = p2.length := by
    rw [← List.length_map p1 foldA, h, List.length_map]
  rw [likeMatch, likeMatch, hlen, likeMatchF_congr _ p1 p2 s h]

theorem likeMatch_pct2_all (s : List Char) : likeMatch ['%', '%'] s = true := by
  rw [likeMatch]
  exact likeMatchF_pct2 s (by simp)

theorem likePat_empty : likePat ("") = ['%', '%'] := rfl

theorem rowMatches_empty (r : Row) : rowMatches ("") r = true := by
  rw [rowMatches, likePat_empty, likeMatch_pct2_all]
  simp

theorem likePat_map_congr {q1 q2 : String} (h : q1.data.map foldA = q2.data.map foldA) :
    (likePat q1).map foldA = (likePat q2).map foldA := by
  simp only [likePat, List.map_cons, List.map_append, h]

theorem sqlLikeVal_congr {q1 q2 : String} (v : SqlVal)
    (h : q1.data.map foldA = q2.data.map foldA) :
    sqlLikeVal (likePat q1) v = sqlLikeVal (likePat q2) v := by
  rcases v with _ | i | s <;> simp only [sqlLikeVal]
  · rw [likeMatch_congr _ (likePat_map_congr h)]
  · rw [likeMatch_congr _ (likePat_map_congr h)]

theorem rowMatches_congr {q1 q2 : String} (r : Row)
    (h : q1.data.map foldA = q2.data.map foldA) :
    rowMatches q1 r = rowMatches q2 r := by
  rw [rowMatches, rowMatches, likeMatch_congr _ (likePat_map_congr h),
    sqlLikeVal_congr r.tags h, sqlLikeVal_congr r.ingredients h]

/-- Pipeline lemma for the scaler: when the regex matches and the quantity
evaluates, the output is the rendered quantity, one space, and the trimmed
remainder. -/
theorem scale_eq_of_match {line : String} {ratio : ℚ} {g1 g2 : List Char} {q : ℚ}
    (hm : matchQty (stripChars line.data) = some (g1, g2))
    (hq : fracToFloat (stripChars g1) = .ok q) :
    scaleIngredientLine line ratio =
      ⟨(fmtQty (ratMul q ratio)).data ++ ' ' :: stripChars g2⟩ := by
  rw [scaleIngredientLine]
  simp only [hm, hq, Except.map]

/-- When the regex matches but the quantity evaluation raises, the stripped
line is returned unchanged. -/
theorem scale_eq_of_error {line : String} {ratio : ℚ} {g1 g2 : List Char}
    (hm : matchQty (stripChars line.data) = some (g1, g2))
    (hq : fracToFloat (stripChars g1) = .error ()) :
    scaleIngredientLine line ratio = ⟨stripChars line.data⟩ := by
  rw [scaleIngredientLine]
  simp only [hm, hq, Except.map]


theorem altMixed_boundary {cs g1 g2 : List Char} (h : altMixed cs = some (g1, g2)) :
    boundaryOk g2 = true := by
  rw [altMixed] at h
  dsimp only at h
  split at h
  · exact absurd h (by simp)
  · split at h
    · split at h
      · exact absurd h (by simp)
      · split at h
        · injection h with h2
          injection h2 with h3 h4
          subst h4
          assumption
        · exact absurd h (by simp)
    · exact absurd h (by simp)

theorem altFrac_boundary {cs g1 g2 : List Char} (h : altFrac cs = some (g1, g2)) :
    boundaryOk g2 = true := by
  rw [altFrac] at h
  dsimp only at h
  split at h
  · exact absurd h (by simp)
  · split at h
    · split at h
      · exact absurd h (by simp)
      · split at h
        · injection h with h2
          injection h2 with h3 h4
          subst h4
          assumption
        · exact absurd h (by simp)
    · exact absurd h (by simp)

theorem altDec_boundary {cs g1 g2 : List Char} (h : altDec cs = some (g1, g2)) :
    boundaryOk g2 = true := by
  rw [altDec] at h
  dsimp only at h
  split at h
  · exact absurd h (by simp)
  · split at h
    · split at h
      · injection h with h2
        injection h2 with h3 h4
        subst h4
        next he => exact he.2
      · split at h
        · injection h with h2
          injection h2 with h3 h4
          subst h4
          assumption
        · exact absurd h (by simp)
    · split at h
      · injection h with h2
        injection h2 with h3 h4
        subst h4
        assumption
      · exact absurd h (by simp)

theorem matchQty_boundary {cs g1 g2 : List Char} (h : matchQty cs = some (g1, g2)) :
    boundaryOk g2 = true := by
  rw [matchQty] at h
  rcases hm : altMixed cs with _ | v
  · rw [hm] at h
    rcases hf : altFrac cs with _ | w
    · rw [hf] at h
      exact altDec_boundary (by
        rw [show (Option.orElse none fun _ => Option.orElse none fun _ => altDec cs) =
          altDec cs from rfl] at h
        exact h)
    · rw [hf] at h
      rw [show (Option.orElse none fun _ => Option.orElse (some w) fun _ => altDec cs) =
        some w from rfl] at h
      injection h with h2
      subst h2
      exact altFrac_boundary hf
  · rw [hm] at h
    rw [show (Option.orElse (some v) fun _ => Option.orElse (altFrac cs) fun _ =>
      altDec cs) = some v from rfl] at h
    injection h with h2
    subst h2
    exact altMixed_boundary hm

theorem decodeIngredients_text_legacy {s : String} (hne : s ≠ "")
    (hjson : jsonLoads s = none) :
    decodeIngredients (.text s) =
      Json.arr ((stripFilter (pySplitlines s.data)).map Json.str) := by
  rw [decodeIngredients]
  simp only [pyOrText, if_neg hne, hjson]

theorem decodeIngredients_text_json {s : String} (hne : s ≠ "") {v : Json}
    (hjson : jsonLoads s = some v) : decodeIngredients (.text s) = v := by
  rw [decodeIngredients]
  simp only [pyOrText, if_neg hne, hjson]

theorem jsonDumpsList_ne_empty (l : List String) : jsonDumpsList l ≠ "" := by
  intro h
  rw [string_eq_empty_iff] at h
  exact absurd h (by simp [jsonDumpsList])

/-! ## Sample data used in the concrete statements -/

/-- A stored row as `add` would produce it for a typical record. -/
def sampleRow : Row :=
  { id := 1
    title := "Pancakes"
    ingredients := SqlVal.null
    instructions := SqlVal.null
    tags := SqlVal.text "breakfast,easy"
    servings := SqlVal.int 4
    created_at := SqlVal.text "2024-01-01T00:00:00" }

/-- `sampleRow` with a non-numeric text value in the `servings` column. -/
def badServRow : Row := { sampleRow with servings := SqlVal.text "abc" }

/-- A CSV row whose servings cell is present but not parseable as an integer. -/
def badCsvRow : CsvRow := { title := some "A", servings := some "abc" }

/-- A CSV row with only a title. -/
def plainCsvRow : CsvRow := { title := some "B" }

/-- An in-memory record whose ingredient lines contain commas. -/
def sampleRec : Recipe :=
  { title := "Cake"
    ingredients := ["sugar, 1 tbsp", "2 cups flour"]
    instructions := "Mix."
    tags := ["sweet", "easy"]
    servings := 8
    created_at := "2024-02-02T00:00:00" }

/-! ## Claims -/

/-- C1 (counterexample): on a store holding one record, `search("")` does
not return the empty sequence — the `LIKE '%%'` pattern matches the row. -/
theorem C1_search_empty_cex : searchRepo "now" [sampleRow] "" ≠ Except.ok [] := by
  intro h
  have h2 := congrArg (Except.map List.length) h
  rw [show (searchRepo "now" [sampleRow] "").map List.length =
    (Except.ok 1 : Except Unit Nat) from rfl] at h2
  simp [Except.map] at h2

/-- C1 (amended): for every repository state, `search` with the empty query
returns every record, identically to `list_all` — `title LIKE '%%'` holds
for every row, so the `WHERE` clause filters nothing. -/
theorem C1_search_empty_eq_list_all (now : String) (db : List Row) :
    searchRepo now db "" = listAllRepo now db := by
  rw [searchRepo, listAllRepo, List.filter_eq_self.mpr fun r _ => rowMatches_empty r]

/-- C2 (counterexample): a batch whose first row has the unparsable servings
cell `"abc"` aborts with an error; the second row is never processed and no
count is returned. -/
theorem C2_import_unparsable_cex :
    importRows "t" [badCsvRow, plainCsvRow] = Except.error () := by rfl

/-- C2 (amended): `servings` defaults to 1 only when the cell is missing or
empty, in which case the batch continues and counts the row; a present,
non-empty, unparsable value raises `ValueError` and aborts the whole batch. -/
theorem C2_import_servings (now : String) (row : CsvRow) (rows : List CsvRow)
    (htitle : pyStripS (row.title.getD "") ≠ "") :
    ((row.servings = none ∨ row.servings = some "") →
      importRows now (row :: rows) =
        (importRows now rows).map fun p => (p.1 + 1, mkImported now row 1 :: p.2)) ∧
    (∀ s : String, row.servings = some s → s ≠ "" → pyIntStr s = .error () →
      importRows now (row :: rows) = .error ()) := by
  constructor
  · intro hs
    have hcs : csvServings row.servings = .ok 1 := by
      rcases hs with hs | hs <;> rw [hs]
      · rfl
      · rw [csvServings, if_pos rfl]
    rw [importRows, if_neg htitle, hcs]
    rcases himp : importRows now rows with e | ⟨n, rs⟩
    · rfl
    · rfl
  · intro s hs hne hp
    have hcs : csvServings row.servings = .error () := by
      rw [hs, csvServings, if_neg hne, hp]
    rw [importRows, if_neg htitle, hcs]

/-- C2 witness. -/
theorem C2_import_servings_w :
    (importRows "t" [{ title := some "A" }] =
      (importRows "t" []).map fun p => (p.1 + 1, mkImported "t" { title := some "A" } 1 :: p.2)) ∧
    importRows "t" [badCsvRow] = .error () :=
  ⟨(C2_import_servings "t" { title := some "A" } [] (by decide)).1 (Or.inl rfl),
    (C2_import_servings "t" badCsvRow [] (by decide)).2 "abc" rfl (by decide) rfl⟩

/-- C3 (counterexample): the leading-quantity match is not "any non-digit
continuation": both `"2cups"` and `"2nd"` fail the word-boundary test
(letters are word characters), so the regex does not match at all and the
line is returned unchanged instead of being scaled. -/
theorem C3_boundary_cex :
    matchQty ("2cups flour").data = none ∧
    matchQty ("2nd street").data = none ∧
    scaleIngredientLine "2cups flour" 2 = "2cups flour" ∧
    scaleIngredientLine "2nd street" 2 = "2nd street" :=
  ⟨rfl, rfl, rfl, rfl⟩

/-- C3 (amended): the leading-quantity match succeeds only when the number
is followed by the end of the line or a non-word character (not a letter,
digit or underscore): every successful match leaves a remainder passing
`boundaryOk`, `"2 cups ..."` matches the leading `2`, and scaling works on
it; `"2cups"`/`"2nd"` do not match (see the counterexample). -/
theorem C3_boundary_rule :
    (∀ cs g1 g2 : List Char, matchQty cs = some (g1, g2) → boundaryOk g2 = true) ∧
    matchQty ("2 cups flour").data = some ("2".data, " cups flour".data) ∧
    scaleIngredientLine "2 cups flour" 2 = "4 cups flour" :=
  ⟨fun _ _ _ h => matchQty_boundary h, rfl, rfl⟩

/-- C3 witness. -/
theorem C3_boundary_rule_w : boundaryOk (" cups flour").data = true :=
  C3_boundary_rule.1 ("2 cups flour").data ("2".data) (" cups flour").data rfl

/-- C4 (counterexample): scaling the line `"2"` by 2 yields `"4 "` with a
trailing space — the `f"{qty_fmt} {rest}"` template always inserts the
space, even for an empty remainder. -/
theorem C4_trailing_space_cex :
    scaleIngredientLine "2" 2 = "4 " ∧ scaleIngredientLine "2" 2 ≠ "4" :=
  ⟨rfl, by decide⟩

/-- C4 (amended): for every line with a parsed leading quantity, the result
is the rendered quantity, one space, and the trimmed remainder — in every
case, so when the remainder is empty the result keeps a trailing space
(scaling `"2"` by 2.0 yields `"4 "`). -/
theorem C4_concat_rule :
    (∀ (line : String) (ratio : ℚ) (g1 g2 : List Char) (q : ℚ),
      matchQty (stripChars line.data) = some (g1, g2) →
      fracToFloat (stripChars g1) = .ok q →
      scaleIngredientLine line ratio =
        ⟨(fmtQty (ratMul q ratio)).data ++ ' ' :: stripChars g2⟩) ∧
    scaleIngredientLine "2" 2 = "4 " :=
  ⟨fun _ _ _ _ _ hm hq => scale_eq_of_match hm hq, rfl⟩

/-- C4 witness. -/
theorem C4_concat_rule_w : scaleIngredientLine "2 cups" 2 = "4 cups" :=
  C4_concat_rule.1 "2 cups" 2 ("2".data) (" cups".data) 2 rfl rfl

/-- C5 (counterexample): decoding a stored row whose `servings` column holds
the non-numeric text `"abc"` raises (`int("abc")` fails) instead of
defaulting to 1. -/
theorem C5_decode_servings_cex : rowToRecipe "t" badServRow = Except.error () := by rfl

/-- C5 (amended): on the read path an absent (`NULL`) `servings` decodes to
the default 1 (as do the falsy values 0 and `""`), but a non-numeric text
value fails the whole row decode with `ValueError`. -/
theorem C5_decode_servings (now : String) (row : Row) :
    (row.servings = SqlVal.null →
      ∃ rec, rowToRecipe now row = .ok rec ∧ rec.servings = 1) ∧
    (∀ s : String, row.servings = SqlVal.text s → s ≠ "" → pyIntStr s = .error () →
      rowToRecipe now row = .error ()) := by
  constructor
  · intro hs
    rcases hres : rowToRecipe now row with e | rec
    · exact absurd hres (by simp [rowToRecipe, hs, decodeServings])
    · refine ⟨rec, rfl, ?_⟩
      simp only [rowToRecipe, hs, decodeServings] at hres
      injection hres with h2
      rw [← h2]
  · intro s hs hne hp
    rw [rowToRecipe, hs]
    simp only [decodeServings, if_neg hne, hp]

/-- C5 witness. -/
theorem C5_decode_servings_w :
    (∃ rec, rowToRecipe "t" { sampleRow with servings := SqlVal.null } = .ok rec ∧
      rec.servings = 1) ∧
    rowToRecipe "t" badServRow = Except.error () :=
  ⟨(C5_decode_servings "t" { sampleRow with servings := SqlVal.null }).1 rfl,
    (C5_decode_servings "t" badServRow).2 "abc" rfl (by decide) rfl⟩

/-- C6: for every line with a parsed leading quantity `q` and ratio `r`, the
scaled line renders `q*r` through `fmtQty`: as a bare integer when within
`1e-6` of the nearest integer, otherwise with two decimal places and the
trailing zeros and a trailing decimal point stripped; in particular
`scale("1/3 tsp salt", 3.0) = "1 tsp salt"`,
`scale("2 cups milk", 2.0) = "4 cups milk"`, `1.50` renders `"1.5"`, and
`4/3` renders `"1.33"`. -/
theorem C6_render_rule :
    (∀ (line : String) (ratio : ℚ) (g1 g2 : List Char) (q : ℚ),
      matchQty (stripChars line.data) = some (g1, g2) →
      fracToFloat (stripChars g1) = .ok q →
      scaleIngredientLine line ratio =
        ⟨(fmtQty (ratMul q ratio)).data ++ ' ' :: stripChars g2⟩) ∧
    (∀ x : ℚ,
      (ratLt (ratAbs (ratSubInt x (rndHE x))) (mkRat 1 1000000) →
        fmtQty x = pyStrInt (rndHE x)) ∧
      (¬ratLt (ratAbs (ratSubInt x (rndHE x))) (mkRat 1 1000000) →
        fmtQty x = rstripDot (rstripZeros (twoDecStr x)))) ∧
    scaleIngredientLine "1/3 tsp salt" 3 = "1 tsp salt" ∧
    scaleIngredientLine "2 cups milk" 2 = "4 cups milk" ∧
    fmtQty (mkRat 3 2) = "1.5" ∧
    fmtQty (mkRat 4 3) = "1.33" := by
  refine ⟨fun _ _ _ _ _ hm hq => scale_eq_of_match hm hq, fun x => ⟨?_, ?_⟩, rfl, rfl, rfl, rfl⟩
  · intro h
    rw [fmtQty, if_pos h]
  · intro h
    rw [fmtQty, if_neg h]

/-- C6 witness. -/
theorem C6_render_rule_w : scaleIngredientLine "1/2 cup milk" 3 = "1.5 cup milk" :=
  C6_render_rule.1 "1/2 cup milk" 3 ("1/2".data) (" cup milk".data) (mkRat 1 2) rfl rfl

/-- C7: exporting a record (ingredients pipe-joined, tags comma-joined) and
importing the resulting row recovers the title, ingredient sequence,
instructions, tags and servings, for every record whose fields are trimmed,
non-empty, and free of the respective delimiter — commas inside ingredient
lines (e.g. `"sugar, 1 tbsp"`) survive because the pipe, not the comma, is
the ingredient delimiter. -/
theorem C7_csv_roundtrip (now : String) (r : Recipe)
    (htitle : stripChars r.title.data = r.title.data) (htne : r.title ≠ "")
    (hing : ∀ x ∈ r.ingredients, stripChars x.data = x.data ∧ x ≠ "" ∧ '|' ∉ x.data)
    (htags : ∀ x ∈ r.tags, stripChars x.data = x.data ∧ x ≠ "" ∧ ',' ∉ x.data)
    (hins : stripChars r.instructions.data = r.instructions.data) :
    importRows now [exportRow r] = .ok (1, [{ r with created_at := now }]) :=
  importRows_exportRow now r htitle htne hing htags hins

/-- C7 witness: a record with a comma inside an ingredient line. -/
theorem C7_csv_roundtrip_w :
    importRows "t2" [exportRow sampleRec] =
      .ok (1, [{ sampleRec with created_at := "t2" }]) :=
  C7_csv_roundtrip "t2" sampleRec (by decide) (by decide) (by decide) (by decide) (by decide)

/-- C8 (counterexample): the non-blank, trimmed line `"123"`, stored in the
legacy newline-separated encoding, is itself a valid JSON document, so
`json.loads` succeeds and the row decodes to the number `123` — not to the
one-element list the structured encoding of the same line decodes to. -/
theorem C8_legacy_cex :
    decodeIngredients (.text "123") = Json.num (mkRat 123 1) ∧
    decodeIngredients (.text (jsonDumpsList ["123"])) = Json.arr [Json.str "123"] ∧
    Json.num (mkRat 123 1) ≠ Json.arr [Json.str "123"] ∧
    stripChars ("123").data = ("123").data ∧ ("123" : String) ≠ "" :=
  ⟨rfl, rfl, fun h => Json.noConfusion h, rfl, by decide⟩

/-- C8 (amended): for every sequence of non-blank, trimmed, line-break-free
lines whose newline-join is not itself a parseable JSON document, the stored
legacy text decodes to the same ordered ingredient sequence as the
structured (JSON list) encoding of the identical lines, namely the lines
themselves. -/
theorem C8_legacy_structured (lines : List String)
    (h : ∀ x ∈ lines, stripChars x.data = x.data ∧ x ≠ "" ∧
      ∀ c ∈ x.data, isLineBrk c = false)
    (hjson : jsonLoads ⟨joinChar '\n' (lines.map String.data)⟩ = none) :
    decodeIngredients (.text ⟨joinChar '\n' (lines.map String.data)⟩) =
      decodeIngredients (.text (jsonDumpsList lines)) ∧
    decodeIngredients (.text (jsonDumpsList lines)) = Json.arr (lines.map Json.str) := by
  have hstruct : decodeIngredients (.text (jsonDumpsList lines)) =
      Json.arr (lines.map Json.str) :=
    decodeIngredients_text_json (jsonDumpsList_ne_empty lines)
      (jsonLoads_jsonDumpsList lines)
  refine ⟨?_, hstruct⟩
  rcases lines with _ | ⟨x, xs⟩
  · rw [hstruct]
    rfl
  · have hne : (⟨joinChar '\n' ((x :: xs).map String.data)⟩ : String) ≠ "" := by
      rw [Ne, string_eq_empty_iff]
      exact joinNl_ne_nil xs (h x (by simp)).2.1
    rw [decodeIngredients_text_legacy hne hjson, hstruct,
      show (⟨joinChar '\n' ((x :: xs).map String.data)⟩ : String).data =
        joinChar '\n' ((x :: xs).map String.data) from rfl,
      stripFilter_splitlines_join (x :: xs) h]

/-- C8 witness: two comma-containing lines round-trip identically through
both encodings. -/
theorem C8_legacy_structured_w :
    decodeIngredients (.text ⟨joinChar '\n'
        ((["sugar, 1 tbsp", "salt"] : List String).map String.data)⟩) =
      decodeIngredients (.text (jsonDumpsList ["sugar, 1 tbsp", "salt"])) :=
  (C8_legacy_structured ["sugar, 1 tbsp", "salt"] (by decide) rfl).1

/-- C9: `scale` never raises: it is a total function, every input either
comes back as the stripped line (no usable quantity) or as a rendered
scaled quantity, and in particular a zero-denominator fraction — whose
quantity evaluation raises the malformed-quantity error internally — is
caught and treated exactly like "no quantity found": the line comes back
stripped and unscaled. -/
theorem C9_malformed_caught :
    (∀ (line : String) (ratio : ℚ) (g1 g2 : List Char),
      matchQty (stripChars line.data) = some (g1, g2) →
      fracToFloat (stripChars g1) = .error () →
      scaleIngredientLine line ratio = ⟨stripChars line.data⟩) ∧
    (∀ (line : String) (ratio : ℚ),
      scaleIngredientLine line ratio = ⟨stripChars line.data⟩ ∨
      ∃ g1 g2 q, matchQty (stripChars line.data) = some (g1, g2) ∧
        fracToFloat (stripChars g1) = Except.ok q ∧
        scaleIngredientLine line ratio =
          ⟨(fmtQty (ratMul q ratio)).data ++ ' ' :: stripChars g2⟩) := by
  constructor
  · intro line ratio g1 g2 hm hq
    exact scale_eq_of_error hm hq
  · intro line ratio
    rcases hm : matchQty (stripChars line.data) with _ | ⟨g1, g2⟩
    · left
      rw [scaleIngredientLine]
      simp only [hm]
    · rcases hq : fracToFloat (stripChars g1) with e | q
      · left
        cases e
        exact scale_eq_of_error hm hq
      · right
        exact ⟨g1, g2, q, rfl, hq, scale_eq_of_match hm hq⟩

/-- C9 witness: a zero-denominator line is returned unchanged. -/
theorem C9_malformed_caught_w : scaleIngredientLine "1/0 cup sugar" 2 = "1/0 cup sugar" :=
  C9_malformed_caught.1 "1/0 cup sugar" 2 ("1/0".data) (" cup sugar".data) rfl rfl

/-- C10: search matching is case-insensitive for ASCII letters: two queries
that agree after SQLite's ASCII case folding produce identical search
results on every repository state. -/
theorem C10_search_case_insensitive (now : String) (db : List Row) (q1 q2 : String)
    (h : q1.data.map foldA = q2.data.map foldA) :
    searchRepo now db q1 = searchRepo now db q2 := by
  rw [searchRepo, searchRepo,
    List.filter_congr fun r _ => rowMatches_congr r h]

/-- C10 witness: `"PANCAKE"` and `"pancake"` return the same results. -/
theorem C10_search_case_insensitive_w :
    searchRepo "t" [sampleRow] "PANCAKE" = searchRepo "t" [sampleRow] "pancake" :=
  C10_search_case_insensitive "t" [sampleRow] "PANCAKE" "pancake" (by decide)
